import Mathlib

/-!
Verification development for the `ecrs-data-kit` JSSP solver.

The repository's entry point `src/solver/src/main.rs` wires a genetic-algorithm
engine together with problem-specific operators (population provider, fitness
evaluator, crossover operators, replacement operator).  The entry point itself
is embedded directly from the source; the operator implementations live in
modules (`problem/*`, `config.rs`) that are not part of the available sources,
so those are modelled from the specification's component descriptions, as
marked on each definition.
-/

open List

set_option linter.unusedVariables false

namespace EcrsDataKit

/-! ## Run configuration (`src/solver/src/main.rs`) -/

/-- Embedded from `src/solver/src/main.rs`: `JsspConfig` carries the instance
dimensions; `get_run_config` reads `inst.cfg.n_ops`. -/
structure JsspConfig where
  n_ops : ℕ
  n_machines : ℕ
deriving DecidableEq, Repr

/-- Modelled from the spec: `JsspInstance` lives in the missing `problem`
module.  §3 describes it as owning the set of jobs (each an ordered list of
operations, identified here by their machine and duration) plus the machine
count; `main.rs` accesses `inst.cfg.n_ops`. -/
structure JsspInstance where
  cfg : JsspConfig
  jobs : List (List (ℕ × ℕ))
deriving DecidableEq, Repr

/-- Modelled from the spec: `Config` is produced by the missing `config.rs`.
The `pop_size`/`n_gen`/`solver_type` fields follow their uses in `main.rs`
(`if let Some(ps) = config.pop_size`, etc.); the remaining fields of the
numeric configuration block follow §6 of the spec ("fitness penalty exponent,
elite ratio, random-injection ratio"). -/
structure Config where
  pop_size : Option ℕ
  n_gen : Option ℕ
  solver_type : String
  fitness_penalty : ℚ
  elite_ratio : ℚ
  random_ratio : ℚ
deriving DecidableEq, Repr

/-- Embedded from `src/solver/src/main.rs` (`struct RunConfig`). -/
structure RunConfig where
  pop_size : ℕ
  n_gen : ℕ
deriving DecidableEq, Repr

/-- Embedded from `src/solver/src/main.rs` (`fn get_run_config`): the user
override wins, otherwise `n_ops * 2` resp. `400`. -/
def get_run_config (inst : JsspInstance) (config : Config) : RunConfig :=
  { pop_size :=
      match config.pop_size with
      | some ps => ps
      | none => inst.cfg.n_ops * 2
    n_gen :=
      match config.n_gen with
      | some ng => ng
      | none => 400 }

/-! ## Solver dispatch (`fn run`) -/

/-- The three solver configurations selectable in `main.rs`. -/
inductive SolverKind where
  | randomsearch
  | customCrossover
  | paper
deriving DecidableEq, Repr

/-- Embedded from `src/solver/src/main.rs` (`fn run`): the `match` on
`config.solver_type.as_str()`, parameterised by the values of the two string
constants `SOLVER_TYPE_RANDOMSEARCH` and `SOLVER_TYPE_CUSTOM_CROSSOVER`
(declared in the missing `config.rs`). -/
def run_dispatch (rsConst ccConst : String) (config : Config) : SolverKind :=
  if config.solver_type = rsConst then SolverKind.randomsearch
  else if config.solver_type = ccConst then SolverKind.customCrossover
  else SolverKind.paper

/-! ## Numeric parameters passed by the three entry points -/

/-- The numeric parameters each entry point hands to the GA builder. -/
structure SolverParams where
  fitness_penalty : ℚ
  elite_ratio : ℚ
  random_ratio : ℚ
  pop_size : ℕ
  n_gen : ℕ
deriving DecidableEq, Repr

/-- Embedded from `src/solver/src/main.rs` (`fn run_paper_solver`): the
builder receives `JsspReplacement::new(.., 0.1, 0.2)`, `JsspFitness::new(1.5)`
and the resolved run configuration. -/
def run_paper_solver_params (inst : JsspInstance) (config : Config) : SolverParams :=
  let run_config := get_run_config inst config
  { fitness_penalty := 3 / 2
    elite_ratio := 1 / 10
    random_ratio := 2 / 10
    pop_size := run_config.pop_size
    n_gen := run_config.n_gen }

/-- Embedded from `src/solver/src/main.rs`
(`fn run_paper_solver_with_custom_operators`): same constants as the paper
solver, with the `MidPoint` crossover instead. -/
def run_custom_solver_params (inst : JsspInstance) (config : Config) : SolverParams :=
  let run_config := get_run_config inst config
  { fitness_penalty := 3 / 2
    elite_ratio := 1 / 10
    random_ratio := 2 / 10
    pop_size := run_config.pop_size
    n_gen := run_config.n_gen }

/-- Embedded from `src/solver/src/main.rs` (`fn run_randomsearch`): the
baseline passes `JsspFitness::new(1.5)` and no replacement ratios (it uses
`ReplaceWithRandomPopulation`). -/
def run_randomsearch_penalty (inst : JsspInstance) (config : Config) : ℚ :=
  3 / 2

/-! ## Fitness score (spec §4.2) -/

/-- Modelled from the spec: `JsspFitness` lives in the missing
`problem/fitness.rs`.  §4.2: "Score is computed as `1 / makespan^p` ... where
`p` is a configurable penalty exponent". -/
noncomputable def fitnessScore (makespan : ℕ) (p : ℝ) : ℝ :=
  1 / (makespan : ℝ) ^ p

/-! ## Replacement operator (spec §4.4) -/

/-- Descending insertion of a fitness value into a descending-sorted list. -/
def insertDesc (x : ℕ) : List ℕ → List ℕ
  | [] => [x]
  | y :: ys => if y ≤ x then x :: y :: ys else y :: insertDesc x ys

/-- Descending (best-fitness-first) sort of a list of fitness values;
insertion sort is stable, matching §4.4's "ties broken by insertion order". -/
def sortDesc (l : List ℕ) : List ℕ := l.foldr insertDesc []

/-- Number of individuals in a `ratio` fraction of a population of size `n`
(§4.4: "the top `elite_ratio` fraction", "the next `random_ratio`
fraction"). -/
def ratioCount (ratio : ℚ) (n : ℕ) : ℕ := (⌊ratio * n⌋).toNat

/-- Modelled from the spec: `JsspReplacement` lives in the missing
`problem/replacement.rs`.  §4.4: the next generation is the top `elite_ratio`
fraction of the current population ranked by fitness, then a `random_ratio`
fraction of freshly generated individuals from the Population Provider (passed
here as `randoms`), and the remaining fraction filled from the offspring pool
best-fitness-first.  Individuals are represented by their fitness values. -/
def jsspReplacement (eliteRatio randomRatio : ℚ)
    (pop offspring randoms : List ℕ) : List ℕ :=
  (sortDesc pop).take (ratioCount eliteRatio pop.length) ++
    randoms.take (ratioCount randomRatio pop.length) ++
    (sortDesc offspring).take
      (pop.length - ratioCount eliteRatio pop.length - ratioCount randomRatio pop.length)

/-- The elite-band ordering asserted by the spec for the replacement result:
every fitness value in the elite slice is at least the worst (minimal)
retained fitness of the random/offspring slices. -/
def eliteBandProp (eliteCount : ℕ) (next : List ℕ) : Prop :=
  ∀ e ∈ next.take eliteCount, ∀ w ∈ next.drop eliteCount,
    (∀ x ∈ next.drop eliteCount, w ≤ x) → w ≤ e

instance (eliteCount : ℕ) (next : List ℕ) : Decidable (eliteBandProp eliteCount next) := by
  unfold eliteBandProp; infer_instance

/-! ## Instance loading and run abortion (spec §4.1, §7; `fn run`) -/

/-- The load-time error kinds of §7. -/
inductive InstanceError where
  | emptyInstance
  | badMachineReference
deriving DecidableEq, Repr

/-- Raw parsed content of an instance file: per job, the (machine, duration)
rows, plus the declared machine count. -/
structure RawInstance where
  jobs : List (List (ℕ × ℕ))
  n_machines : ℕ
deriving DecidableEq, Repr

/-- Total number of operations in a raw instance. -/
def rawOpCount (raw : RawInstance) : ℕ := (raw.jobs.map List.length).sum

/-- Whether some operation references a nonexistent machine. -/
def hasBadMachineRef (raw : RawInstance) : Bool :=
  raw.jobs.any (fun job => job.any (fun op => raw.n_machines ≤ op.1))

/-- Modelled from the spec: `JsspInstance::try_from` lives in the missing
`problem`/`parse` modules.  §4.1/§7: instance loading "fails with
`InstanceError` if the instance has zero operations or an operation references
a nonexistent job/machine — validated once at load time". -/
def loadInstance (raw : RawInstance) : Except InstanceError JsspInstance :=
  if rawOpCount raw = 0 then Except.error InstanceError.emptyInstance
  else if hasBadMachineRef raw then Except.error InstanceError.badMachineReference
  else Except.ok
    { cfg := { n_ops := rawOpCount raw, n_machines := raw.n_machines }
      jobs := raw.jobs }

/-- Observable trace of one invocation of `fn run`: how often the instance
loader ran, how many generations executed, and whether the run aborted with a
load-time error. -/
structure RunTrace where
  loadCalls : ℕ
  generationsExecuted : ℕ
  aborted : Option InstanceError
deriving DecidableEq, Repr

/-- Embedded from `src/solver/src/main.rs` (`fn run`): the instance is loaded
exactly once, before solver dispatch; `.unwrap()` aborts the run on a load
error.  On success the selected solver runs the resolved number of generations
(driven by the external engine) without ever revalidating the instance. -/
def runModel (raw : RawInstance) (config : Config) : RunTrace :=
  match loadInstance raw with
  | Except.error e => { loadCalls := 1, generationsExecuted := 0, aborted := some e }
  | Except.ok inst =>
      { loadCalls := 1
        generationsExecuted := (get_run_config inst config).n_gen
        aborted := none }

/-! ## Forward schedule simulation (spec §4.2) -/

/-- An operation of the instance: its job, its machine and its processing
duration (spec §3). -/
structure Operation where
  job : ℕ
  machine : ℕ
  duration : ℕ
deriving DecidableEq, Repr

/-- One scheduled operation: the operation together with its derived start and
finish times. -/
structure SimEntry where
  op : Operation
  start : ℕ
  finish : ℕ
deriving DecidableEq, Repr

/-- Modelled from the spec: the Fitness Evaluator's forward simulation
(`problem/fitness.rs` is missing).  §4.2: "walks the individual's genome in
order, and for each operation computes the earliest feasible start time as
`max(job-predecessor end time, machine's last-assigned end time)`, then sets
end time = start + duration, updating the machine's cursor". -/
def simulate : List Operation → (ℕ → ℕ) → (ℕ → ℕ) → List SimEntry
  | [], _, _ => []
  | o :: rest, jobEnd, machEnd =>
    ⟨o, max (jobEnd o.job) (machEnd o.machine),
        max (jobEnd o.job) (machEnd o.machine) + o.duration⟩ ::
      simulate rest
        (Function.update jobEnd o.job (max (jobEnd o.job) (machEnd o.machine) + o.duration))
        (Function.update machEnd o.machine (max (jobEnd o.job) (machEnd o.machine) + o.duration))

/-- Maximum finish time over a simulated schedule; §4.2: "This single
left-to-right pass yields the schedule's makespan = max end time over all
operations". -/
def makespanOf (schedule : List SimEntry) : ℕ :=
  schedule.foldr (fun e acc => max e.finish acc) 0

/-- A schedule candidate with its derived, cached data (spec §3,
"Individual"): the genome plus the start/end times, makespan and scalar score
written by the Fitness Evaluator. -/
structure EvaluatedIndividual where
  genome : List Operation
  schedule : List SimEntry
  makespan : ℕ
  score : ℝ

/-- Modelled from the spec: `JsspFitness::evaluate` (missing
`problem/fitness.rs`) runs the forward simulation on the genome, caches the
derived times, and stores the makespan and the scalar score
`1 / makespan^p`. -/
noncomputable def evaluate (p : ℝ) (ind : EvaluatedIndividual) : EvaluatedIndividual :=
  { genome := ind.genome
    schedule := simulate ind.genome (fun _ => 0) (fun _ => 0)
    makespan := makespanOf (simulate ind.genome (fun _ => 0) (fun _ => 0))
    score := fitnessScore (makespanOf (simulate ind.genome (fun _ => 0) (fun _ => 0))) p }

/-! ## Population provider (spec §4.1) -/

/-- Indices of jobs that still have at least one unplaced operation; their
first unplaced operations are exactly the operations whose job-predecessor
(if any) has already been placed. -/
def readyIdxs {α : Type} (rem : List (List α)) : List ℕ :=
  (List.range rem.length).filter (fun i => !(rem.getD i []).isEmpty)

/-- One construction step of the Population Provider: the random draw `r`
selects one of the ready jobs, whose first unplaced operation is removed from
its remaining queue.  Returns `none` once every operation has been placed. -/
def pickStep {α : Type} (rem : List (List α)) (r : ℕ) : Option (α × List (List α)) :=
  match readyIdxs rem with
  | [] => none
  | j :: js =>
    let i := (j :: js).getD (r % (j :: js).length) 0
    match rem.getD i [] with
    | [] => none
    | op :: rest => some (op, rem.set i rest)

/-- Modelled from the spec: `JsspPopProvider` lives in the missing
`problem/population.rs`.  §4.1: "Builds each individual by repeatedly
choosing, from the set of operations whose job-predecessor (if any) has
already been placed, one operation at random ... and appending it to the
genome, continuing until all operations are placed".  `rands` is the injected
stream of random draws; the fuel is the number of operations still to place. -/
def buildGenome {α : Type} : ℕ → List (List α) → List ℕ → List α
  | 0, _, _ => []
  | fuel + 1, rem, rands =>
    match pickStep rem (rands.headD 0) with
    | none => []
    | some (op, rem') => op :: buildGenome fuel rem' rands.tail

/-- Build one individual's genome from the instance's jobs (each job an
ordered list of its operations) and a stream of random draws. -/
def generateIndividual {α : Type} (jobs : List (List α)) (rands : List ℕ) : List α :=
  buildGenome jobs.flatten.length jobs rands

/-- `generate(count)`: one individual per entry of the random seed table. -/
def generatePopulation {α : Type} (jobs : List (List α)) (count : ℕ)
    (seeds : List (List ℕ)) : List (List α) :=
  (List.range count).map (fun k => generateIndividual jobs (seeds.getD k []))

/-! ## Crossover operators (spec §4.3) -/

/-- The contiguous cut region of `len` genome positions starting at `i`. -/
def cutRegion {α : Type} (p1 : List α) (i len : ℕ) : List α := (p1.drop i).take len

/-- Modelled from the spec: `JsspCrossover` lives in the missing
`problem/crossover.rs`.  §4.3 (precedence-preserving crossover): "selects a
cut region in one parent's genome, copies that contiguous subsequence into the
offspring at the same positions, then fills remaining positions with the
other parent's operations in their relative order, skipping any operation
already placed": the fill sequence occupies the `i` positions before the cut
and the positions after it. -/
def jsspCrossover {α : Type} [DecidableEq α] (p1 p2 : List α) (i len : ℕ) : List α :=
  (p2.filter (· ∉ cutRegion p1 i len)).take i ++ cutRegion p1 i len ++
    (p2.filter (· ∉ cutRegion p1 i len)).drop i

/-- The left-to-right repair scan: each operation already seen earlier in the
scan (a duplicate) is replaced by the next operation from the
missing-operation queue. -/
def repairGo {α : Type} [DecidableEq α] : List α → List α → List α → List α
  | [], _, _ => []
  | x :: xs, miss, seen =>
    if x ∈ seen then
      match miss with
      | [] => x :: repairGo xs [] (x :: seen)
      | m :: ms => m :: repairGo xs ms (m :: seen)
    else
      x :: repairGo xs miss (x :: seen)

/-- Modelled from the spec: the deterministic scan-and-swap repair pass of
§4.3, instantiated with the left-to-right first-missing-operation rule that §9
proposes for the not-fully-specified repair strategy. -/
def repair {α : Type} [DecidableEq α] (full g : List α) : List α :=
  repairGo g (full.filter (· ∉ g)) []

/-- Modelled from the spec: `MidPoint` lives in the missing
`problem/crossover.rs`.  §4.3: "splits both parents at the midpoint index;
offspring takes the first half of genome positions from parent A and the
second half from parent B, then repairs any duplicate/missing operations by a
deterministic scan-and-swap pass to restore a valid permutation". -/
def midPoint {α : Type} [DecidableEq α] (full p1 p2 : List α) : List α :=
  repair full (p1.take (p1.length / 2) ++ p2.drop (p1.length / 2))

/-- Modelled from the spec: `NoopCrossover` (missing `problem/crossover.rs`),
§4.3: "returns parents unchanged". -/
def noopCrossover {α : Type} (p1 p2 : List α) : List α × List α := (p1, p2)

/-- First-occurrence subsequence of a scan input relative to the already-seen
set: the operations the repair scan keeps unchanged. -/
def dedupWrt {α : Type} [DecidableEq α] (seen : List α) : List α → List α
  | [] => []
  | x :: xs => if x ∈ seen then dedupWrt seen xs else x :: dedupWrt (x :: seen) xs

end EcrsDataKit

namespace EcrsDataKit

/-! ## Helper lemmas -/

theorem mem_readyIdxs {α : Type} {rem : List (List α)} {i : ℕ} :
    i ∈ readyIdxs rem ↔ i < rem.length ∧ rem.getD i [] ≠ [] := by
  simp [readyIdxs, List.mem_filter, List.mem_range, List.isEmpty_iff]

theorem getD_eq_nil_of_flatten_nil {α : Type} {rem : List (List α)}
    (h : rem.flatten = []) (i : ℕ) : rem.getD i [] = [] := by
  by_cases hi : i < rem.length
  · have hmem : rem.getD i [] ∈ rem := by
      rw [List.getD_eq_getElem _ _ hi]
      exact List.getElem_mem hi
    exact List.flatten_eq_nil_iff.mp h _ hmem
  · rw [List.getD_eq_default _ _ (Nat.le_of_not_lt hi)]

theorem mem_getD_mem_flatten {α : Type} {rem : List (List α)} {i : ℕ} {x : α}
    (hx : x ∈ rem.getD i []) : x ∈ rem.flatten := by
  by_cases hi : i < rem.length
  · rw [List.getD_eq_getElem _ _ hi] at hx
    exact List.mem_flatten.mpr ⟨rem[i], List.getElem_mem hi, hx⟩
  · rw [List.getD_eq_default _ _ (Nat.le_of_not_lt hi)] at hx
    cases hx

theorem getD_set_self {α : Type} {l : List (List α)} {i : ℕ} {a : List α}
    (h : i < l.length) : (l.set i a).getD i [] = a := by
  rw [List.getD_eq_getElem?_getD, List.getElem?_set_self h]
  rfl

theorem getD_set_ne {α : Type} {l : List (List α)} {i k : ℕ} {a : List α}
    (h : i ≠ k) : (l.set i a).getD k [] = l.getD k [] := by
  rw [List.getD_eq_getElem?_getD, List.getElem?_set_ne h, ← List.getD_eq_getElem?_getD]

theorem pickStep_none {α : Type} {rem : List (List α)} {r : ℕ}
    (h : pickStep rem r = none) : rem.flatten = [] := by
  unfold pickStep at h
  cases hready : readyIdxs rem with
  | nil =>
    rw [List.flatten_eq_nil_iff]
    intro l hl
    obtain ⟨i, hi, hil⟩ := List.mem_iff_getElem.mp hl
    by_contra hne
    have hmem : i ∈ readyIdxs rem := mem_readyIdxs.mpr
      ⟨hi, by rw [List.getD_eq_getElem _ _ hi, hil]; exact hne⟩
    rw [hready] at hmem
    cases hmem
  | cons j js =>
    rw [hready] at h
    simp only at h
    have hlt : r % (j :: js).length < (j :: js).length :=
      Nat.mod_lt _ (by simp)
    have hmem : (j :: js).getD (r % (j :: js).length) 0 ∈ readyIdxs rem := by
      rw [hready, List.getD_eq_getElem _ _ hlt]
      exact List.getElem_mem hlt
    obtain ⟨hlt', hne⟩ := mem_readyIdxs.mp hmem
    cases hget : rem.getD ((j :: js).getD (r % (j :: js).length) 0) [] with
    | nil => exact absurd hget hne
    | cons op rest =>
      rw [hget] at h
      cases h

theorem pickStep_some {α : Type} {rem : List (List α)} {r : ℕ} {op : α}
    {rem' : List (List α)} (h : pickStep rem r = some (op, rem')) :
    ∃ i rest, i < rem.length ∧ rem.getD i [] = op :: rest ∧ rem' = rem.set i rest := by
  unfold pickStep at h
  cases hready : readyIdxs rem with
  | nil =>
    rw [hready] at h
    cases h
  | cons j js =>
    rw [hready] at h
    simp only at h
    have hlt : r % (j :: js).length < (j :: js).length :=
      Nat.mod_lt _ (by simp)
    have hmem : (j :: js).getD (r % (j :: js).length) 0 ∈ readyIdxs rem := by
      rw [hready, List.getD_eq_getElem _ _ hlt]
      exact List.getElem_mem hlt
    obtain ⟨hlt', hne⟩ := mem_readyIdxs.mp hmem
    cases hget : rem.getD ((j :: js).getD (r % (j :: js).length) 0) [] with
    | nil => exact absurd hget hne
    | cons op' rest =>
      rw [hget] at h
      simp only [Option.some.injEq, Prod.mk.injEq] at h
      obtain ⟨rfl, rfl⟩ := h
      exact ⟨_, rest, hlt', hget, rfl⟩

theorem flatten_set_perm {α : Type} :
    ∀ (rem : List (List α)) (i : ℕ) (op : α) (rest : List α),
      rem.getD i [] = op :: rest → rem.flatten ~ op :: (rem.set i rest).flatten
  | [], i, op, rest, h => absurd h (by simp)
  | l :: t, 0, op, rest, h => by
    rw [List.getD_cons_zero] at h
    subst h
    simp only [List.set_cons_zero, List.flatten_cons, List.cons_append]
    exact List.Perm.refl _
  | l :: t, i + 1, op, rest, h => by
    rw [List.getD_cons_succ] at h
    have ih := flatten_set_perm t i op rest h
    simp only [List.set_cons_succ, List.flatten_cons]
    exact (ih.append_left l).trans List.perm_middle

theorem buildGenome_perm {α : Type} :
    ∀ (fuel : ℕ) (rem : List (List α)) (rands : List ℕ),
      rem.flatten.length ≤ fuel → buildGenome fuel rem rands ~ rem.flatten
  | 0, rem, rands, h => by
    have h0 : rem.flatten = [] := List.length_eq_zero.mp (Nat.le_zero.mp h)
    rw [h0]
    exact List.Perm.refl _
  | fuel + 1, rem, rands, h => by
    rcases hp : pickStep rem (rands.headD 0) with _ | ⟨op, rem'⟩
    · have h0 := pickStep_none hp
      rw [h0]
      have hbg : buildGenome (fuel + 1) rem rands = [] := by
        simp only [buildGenome]
        rw [hp]
      rw [hbg]
    · obtain ⟨i, rest, hlt, hget, hrem'⟩ := pickStep_some hp
      have hperm := flatten_set_perm rem i op rest hget
      rw [← hrem'] at hperm
      have hlen : rem'.flatten.length ≤ fuel := by
        have := hperm.length_eq
        simp only [List.length_cons] at this
        omega
      have ih := buildGenome_perm fuel rem' rands.tail hlen
      have hbg : buildGenome (fuel + 1) rem rands =
          op :: buildGenome fuel rem' rands.tail := by
        simp only [buildGenome]
        rw [hp]
      rw [hbg]
      exact (ih.cons op).trans hperm.symm

theorem buildGenome_filter {α : Type} [DecidableEq α] :
    ∀ (fuel : ℕ) (rem : List (List α)) (rands : List ℕ),
      rem.flatten.length ≤ fuel → rem.flatten.Nodup →
      ∀ i, (buildGenome fuel rem rands).filter (· ∈ rem.getD i []) = rem.getD i []
  | 0, rem, rands, h, hnd, i => by
    have h0 : rem.flatten = [] := List.length_eq_zero.mp (Nat.le_zero.mp h)
    rw [getD_eq_nil_of_flatten_nil h0 i]
    rfl
  | fuel + 1, rem, rands, h, hnd, i => by
    rcases hp : pickStep rem (rands.headD 0) with _ | ⟨op, rem'⟩
    · have h0 := pickStep_none hp
      rw [getD_eq_nil_of_flatten_nil h0 i]
      have hbg : buildGenome (fuel + 1) rem rands = [] := by
        simp only [buildGenome]
        rw [hp]
      rw [hbg]
      rfl
    · obtain ⟨i0, rest, hlt, hget, hrem'⟩ := pickStep_some hp
      have hperm := flatten_set_perm rem i0 op rest hget
      rw [← hrem'] at hperm
      have hnd' := (hperm.nodup_iff).mp hnd
      obtain ⟨hopnot, hnd''⟩ := List.nodup_cons.mp hnd'
      have hlen : rem'.flatten.length ≤ fuel := by
        have := hperm.length_eq
        simp only [List.length_cons] at this
        omega
      have hbg : buildGenome (fuel + 1) rem rands =
          op :: buildGenome fuel rem' rands.tail := by
        simp only [buildGenome]
        rw [hp]
      have hg'perm := buildGenome_perm fuel rem' rands.tail hlen
      have ih := buildGenome_filter fuel rem' rands.tail hlen hnd''
      rw [hbg]
      by_cases hii : i = i0
      · subst hii
        rw [hget, List.filter_cons_of_pos (by simp)]
        have hfc : (buildGenome fuel rem' rands.tail).filter (· ∈ op :: rest) =
            (buildGenome fuel rem' rands.tail).filter (· ∈ rest) := by
          apply List.filter_congr
          intro x hx
          have hxmem : x ∈ rem'.flatten := hg'perm.subset hx
          have hxne : x ≠ op := fun hxe => hopnot (hxe ▸ hxmem)
          simp [List.mem_cons, hxne]
        have hrest : rem'.getD i [] = rest := by
          rw [hrem']
          exact getD_set_self hlt
        rw [hfc, ← hrest, ih i]
      · have hsame : rem.getD i [] = rem'.getD i [] := by
          rw [hrem']
          exact (getD_set_ne (Ne.symm hii)).symm
        have hopnotin : op ∉ rem.getD i [] := by
          rw [hsame]
          intro hmem
          exact hopnot (mem_getD_mem_flatten hmem)
        rw [List.filter_cons_of_neg (by simpa using hopnotin), hsame]
        exact ih i

theorem insertDesc_perm (x : ℕ) (l : List ℕ) : insertDesc x l ~ x :: l := by
  induction l with
  | nil => exact List.Perm.refl _
  | cons y ys ih =>
    by_cases h : y ≤ x
    · simp [insertDesc, h]
    · simp only [insertDesc, if_neg h]
      exact (ih.cons y).trans (List.Perm.swap x y ys)

theorem sortDesc_perm (l : List ℕ) : sortDesc l ~ l := by
  induction l with
  | nil => exact List.Perm.refl _
  | cons x xs ih => exact (insertDesc_perm x (sortDesc xs)).trans (ih.cons x)

theorem length_sortDesc (l : List ℕ) : (sortDesc l).length = l.length :=
  (sortDesc_perm l).length_eq

theorem pairwise_insertDesc (x : ℕ) (l : List ℕ)
    (h : l.Pairwise (fun a b => b ≤ a)) :
    (insertDesc x l).Pairwise (fun a b => b ≤ a) := by
  induction l with
  | nil => simp [insertDesc]
  | cons y ys ih =>
    rw [List.pairwise_cons] at h
    obtain ⟨hy, hys⟩ := h
    by_cases hyx : y ≤ x
    · simp only [insertDesc, if_pos hyx]
      refine List.Pairwise.cons (fun b hb => ?_) (List.Pairwise.cons hy hys)
      rcases List.mem_cons.mp hb with rfl | hb
      · exact hyx
      · exact le_trans (hy b hb) hyx
    · simp only [insertDesc, if_neg hyx]
      refine List.Pairwise.cons (fun b hb => ?_) (ih hys)
      rcases List.mem_cons.mp ((insertDesc_perm x ys).mem_iff.mp hb) with rfl | hb
      · exact Nat.le_of_not_le hyx
      · exact hy b hb

theorem pairwise_sortDesc (l : List ℕ) :
    (sortDesc l).Pairwise (fun a b => b ≤ a) := by
  induction l with
  | nil => simp [sortDesc]
  | cons x xs ih => exact pairwise_insertDesc x (sortDesc xs) ih

theorem ratioCount_half_two : ratioCount (1 / 2) 2 = 1 := by
  norm_num [ratioCount]

theorem ratioCount_zero_two : ratioCount 0 2 = 0 := by
  norm_num [ratioCount]

theorem c2_counts_le :
    ratioCount (1 / 2) ([1, 2] : List ℕ).length +
      ratioCount 0 ([1, 2] : List ℕ).length ≤ ([1, 2] : List ℕ).length := by
  norm_num [ratioCount]

theorem c2_rand_len :
    ([] : List ℕ).length = ratioCount 0 ([1, 2] : List ℕ).length := by
  norm_num [ratioCount]

theorem c2_off_len :
    ([1, 2] : List ℕ).length - ratioCount (1 / 2) ([1, 2] : List ℕ).length -
      ratioCount 0 ([1, 2] : List ℕ).length ≤ ([5] : List ℕ).length := by
  norm_num [ratioCount]

/-- Every scheduled operation starts no earlier than the machine cursor the
simulation started from. -/
theorem simulate_start_ge_machineEnd :
    ∀ (ops : List Operation) (jobEnd machEnd : ℕ → ℕ) (e : SimEntry),
      e ∈ simulate ops jobEnd machEnd → machEnd e.op.machine ≤ e.start
  | [], _, _, e, h => by simp [simulate] at h
  | o :: rest, jobEnd, machEnd, e, h => by
    simp only [simulate, List.mem_cons] at h
    rcases h with rfl | h
    · exact le_max_right _ _
    · have ih := simulate_start_ge_machineEnd rest _ _ e h
      refine le_trans ?_ ih
      by_cases hm : e.op.machine = o.machine
      · rw [hm, Function.update_same]
        exact le_trans (le_max_right _ _) (Nat.le_add_right _ _)
      · rw [Function.update_noteq hm]

/-- In a simulated schedule, whenever an operation precedes another one on the
same machine in genome order, it also finishes before the later one starts. -/
theorem simulate_machine_ordered :
    ∀ (ops : List Operation) (jobEnd machEnd : ℕ → ℕ),
      (simulate ops jobEnd machEnd).Pairwise
        (fun e₁ e₂ => e₁.op.machine = e₂.op.machine → e₁.finish ≤ e₂.start)
  | [], _, _ => by simp [simulate]
  | o :: rest, jobEnd, machEnd => by
    simp only [simulate]
    refine List.Pairwise.cons (fun e he hm => ?_) (simulate_machine_ordered rest _ _)
    have hstart := simulate_start_ge_machineEnd rest _ _ e he
    rw [← hm, Function.update_same] at hstart
    exact hstart

theorem cutRegion_sublist {α : Type} (p1 : List α) (i len : ℕ) :
    (cutRegion p1 i len).Sublist p1 :=
  (List.take_sublist _ _).trans (List.drop_sublist _ _)

theorem jsspCrossover_perm {α : Type} [DecidableEq α] {p1 p2 : List α}
    (hnd : p1.Nodup) (hp : p2 ~ p1) (i len : ℕ) :
    jsspCrossover p1 p2 i len ~ p1 := by
  have hcutnd : (cutRegion p1 i len).Nodup := hnd.sublist (cutRegion_sublist p1 i len)
  have hp2nd : p2.Nodup := hp.nodup_iff.mpr hnd
  have h1 : jsspCrossover p1 p2 i len ~
      cutRegion p1 i len ++ p2.filter (· ∉ cutRegion p1 i len) := by
    calc (p2.filter (· ∉ cutRegion p1 i len)).take i ++ cutRegion p1 i len ++
          (p2.filter (· ∉ cutRegion p1 i len)).drop i
        ~ (cutRegion p1 i len ++ (p2.filter (· ∉ cutRegion p1 i len)).take i) ++
          (p2.filter (· ∉ cutRegion p1 i len)).drop i :=
          List.Perm.append_right _ List.perm_append_comm
      _ = cutRegion p1 i len ++ ((p2.filter (· ∉ cutRegion p1 i len)).take i ++
          (p2.filter (· ∉ cutRegion p1 i len)).drop i) := by rw [List.append_assoc]
      _ = cutRegion p1 i len ++ p2.filter (· ∉ cutRegion p1 i len) := by
          rw [List.take_append_drop]
  have h2 : p2.filter (· ∈ cutRegion p1 i len) ~ cutRegion p1 i len := by
    refine (List.perm_ext_iff_of_nodup (hp2nd.filter _) hcutnd).mpr (fun a => ?_)
    simp only [List.mem_filter, decide_eq_true_eq]
    exact ⟨fun h => h.2, fun h =>
      ⟨hp.mem_iff.mpr ((cutRegion_sublist p1 i len).subset h), h⟩⟩
  have h3 : p2.filter (· ∈ cutRegion p1 i len) ++ p2.filter (· ∉ cutRegion p1 i len) ~ p2 := by
    have hfp := List.filter_append_perm (fun x => decide (x ∈ cutRegion p1 i len)) p2
    simpa [decide_not] using hfp
  exact (h1.trans ((h2.append_right _).symm.trans h3)).trans hp

theorem length_repairGo {α : Type} [DecidableEq α] :
    ∀ (xs miss seen : List α), (repairGo xs miss seen).length = xs.length
  | [], _, _ => rfl
  | x :: xs, miss, seen => by
    by_cases h : x ∈ seen
    · cases miss with
      | nil =>
        simp only [repairGo, if_pos h, List.length_cons]
        rw [length_repairGo xs [] (x :: seen)]
      | cons m ms =>
        simp only [repairGo, if_pos h, List.length_cons]
        rw [length_repairGo xs ms (m :: seen)]
    · simp only [repairGo, if_neg h, List.length_cons]
      rw [length_repairGo xs miss (x :: seen)]

theorem mem_dedupWrt {α : Type} [DecidableEq α] :
    ∀ (seen xs : List α) (y : α), y ∈ dedupWrt seen xs ↔ y ∈ xs ∧ y ∉ seen
  | seen, [], y => by simp [dedupWrt]
  | seen, x :: xs, y => by
    by_cases h : x ∈ seen
    · rw [show dedupWrt seen (x :: xs) = dedupWrt seen xs by
        simp only [dedupWrt, if_pos h]]
      rw [mem_dedupWrt seen xs y]
      constructor
      · rintro ⟨hy, hs⟩
        exact ⟨List.mem_cons_of_mem _ hy, hs⟩
      · rintro ⟨hy, hs⟩
        rcases List.mem_cons.mp hy with rfl | hy
        · exact absurd h hs
        · exact ⟨hy, hs⟩
    · rw [show dedupWrt seen (x :: xs) = x :: dedupWrt (x :: seen) xs by
        simp only [dedupWrt, if_neg h]]
      rw [List.mem_cons, mem_dedupWrt (x :: seen) xs y]
      by_cases hyx : y = x
      · subst hyx
        simp [h]
      · simp [hyx, List.mem_cons]

theorem nodup_dedupWrt {α : Type} [DecidableEq α] :
    ∀ (seen xs : List α), (dedupWrt seen xs).Nodup
  | seen, [] => by simp [dedupWrt]
  | seen, x :: xs => by
    by_cases h : x ∈ seen
    · simp only [dedupWrt, if_pos h]
      exact nodup_dedupWrt seen xs
    · simp only [dedupWrt, if_neg h]
      refine List.nodup_cons.mpr ⟨fun hx => ?_, nodup_dedupWrt (x :: seen) xs⟩
      exact ((mem_dedupWrt _ _ _).mp hx).2 (List.mem_cons_self x seen)

theorem length_dedupWrt_le {α : Type} [DecidableEq α] :
    ∀ (seen xs : List α), (dedupWrt seen xs).length ≤ xs.length
  | seen, [] => le_rfl
  | seen, x :: xs => by
    by_cases h : x ∈ seen
    · simp only [dedupWrt, if_pos h, List.length_cons]
      exact le_trans (length_dedupWrt_le seen xs) (Nat.le_succ _)
    · simp only [dedupWrt, if_neg h, List.length_cons]
      exact Nat.succ_le_succ (length_dedupWrt_le (x :: seen) xs)

theorem dedupWrt_congr {α : Type} [DecidableEq α] :
    ∀ (xs seen₁ seen₂ : List α), (∀ y ∈ xs, (y ∈ seen₁ ↔ y ∈ seen₂)) →
      dedupWrt seen₁ xs = dedupWrt seen₂ xs
  | [], _, _, _ => rfl
  | x :: xs, s₁, s₂, h => by
    have hx := h x (List.mem_cons_self x xs)
    by_cases h1 : x ∈ s₁
    · simp only [dedupWrt, if_pos h1, if_pos (hx.mp h1)]
      exact dedupWrt_congr xs s₁ s₂ (fun y hy => h y (List.mem_cons_of_mem x hy))
    · simp only [dedupWrt, if_neg h1, if_neg (fun hc => h1 (hx.mpr hc))]
      rw [dedupWrt_congr xs (x :: s₁) (x :: s₂) (fun y hy => by
        simp only [List.mem_cons]
        exact or_congr Iff.rfl (h y (List.mem_cons_of_mem x hy)))]

theorem repairGo_perm {α : Type} [DecidableEq α] :
    ∀ (xs miss seen : List α), miss.Nodup →
      (∀ m ∈ miss, m ∉ seen ∧ m ∉ xs) →
      xs.length = (dedupWrt seen xs).length + miss.length →
      repairGo xs miss seen ~ dedupWrt seen xs ++ miss
  | [], miss, seen, hnd, hm, hc => by
    have hm0 : miss = [] := List.length_eq_zero.mp (by
      simp only [dedupWrt, List.length_nil] at hc
      omega)
    subst hm0
    exact List.Perm.refl _
  | x :: xs, miss, seen, hnd, hm, hc => by
    by_cases h : x ∈ seen
    · have hdc : dedupWrt seen (x :: xs) = dedupWrt seen xs := by
        simp only [dedupWrt, if_pos h]
      rw [hdc] at hc ⊢
      cases miss with
      | nil =>
        exfalso
        have := length_dedupWrt_le seen xs
        simp only [List.length_cons, List.length_nil] at hc
        omega
      | cons m ms =>
        obtain ⟨hmseen, hmxxs⟩ := hm m (List.mem_cons_self m ms)
        obtain ⟨hmm, hndms⟩ := List.nodup_cons.mp hnd
        simp only [repairGo, if_pos h]
        have hded : dedupWrt (m :: seen) xs = dedupWrt seen xs := by
          apply dedupWrt_congr
          intro y hy
          simp only [List.mem_cons]
          have hyne : y ≠ m := fun hye =>
            hmxxs (hye ▸ List.mem_cons_of_mem x hy)
          exact ⟨fun hc => hc.elim (fun he => absurd he hyne) id, Or.inr⟩
        have ih := repairGo_perm xs ms (m :: seen) hndms
          (fun m' hm' => by
            obtain ⟨hm'seen, hm'xxs⟩ := hm m' (List.mem_cons_of_mem m hm')
            refine ⟨fun hcm => ?_, fun hmx => hm'xxs (List.mem_cons_of_mem x hmx)⟩
            rcases List.mem_cons.mp hcm with rfl | hcm
            · exact hmm hm'
            · exact hm'seen hcm)
          (by
            rw [hded]
            simp only [List.length_cons] at hc
            omega)
        rw [hded] at ih
        calc m :: repairGo xs ms (m :: seen)
            ~ m :: (dedupWrt seen xs ++ ms) := ih.cons m
          _ ~ dedupWrt seen xs ++ m :: ms := List.perm_middle.symm
    · have hdc : dedupWrt seen (x :: xs) = x :: dedupWrt (x :: seen) xs := by
        simp only [dedupWrt, if_neg h]
      rw [hdc] at hc ⊢
      simp only [repairGo, if_neg h]
      have ih := repairGo_perm xs miss (x :: seen) hnd
        (fun m' hm' => by
          obtain ⟨hm'seen, hm'xxs⟩ := hm m' hm'
          refine ⟨fun hcm => ?_, fun hmx => hm'xxs (List.mem_cons_of_mem x hmx)⟩
          rcases List.mem_cons.mp hcm with rfl | hcm
          · exact hm'xxs (List.mem_cons_self _ _)
          · exact hm'seen hcm)
        (by
          simp only [List.length_cons] at hc
          omega)
      exact ih.cons x

theorem repair_perm {α : Type} [DecidableEq α] {full g : List α} (hnd : full.Nodup)
    (hsub : ∀ x ∈ g, x ∈ full) (hlen : g.length = full.length) :
    repair full g ~ full := by
  have hmissnd : (full.filter (· ∉ g)).Nodup := hnd.filter _
  have hdednd : (dedupWrt [] g).Nodup := nodup_dedupWrt [] g
  have hdedmem : ∀ y, y ∈ dedupWrt ([] : List α) g ↔ y ∈ g := by
    intro y
    rw [mem_dedupWrt]
    simp
  have hded_perm_filter : dedupWrt [] g ~ full.filter (· ∈ g) := by
    refine (List.perm_ext_iff_of_nodup hdednd (hnd.filter _)).mpr (fun a => ?_)
    rw [hdedmem]
    simp only [List.mem_filter, decide_eq_true_eq]
    exact ⟨fun ha => ⟨hsub a ha, ha⟩, fun ha => ha.2⟩
  have hsplit : full.filter (· ∈ g) ++ full.filter (· ∉ g) ~ full := by
    have hfp := List.filter_append_perm (fun x => decide (x ∈ g)) full
    simpa [decide_not] using hfp
  have hcount : g.length = (dedupWrt ([] : List α) g).length + (full.filter (· ∉ g)).length := by
    have hl1 : (dedupWrt ([] : List α) g).length = (full.filter (· ∈ g)).length :=
      hded_perm_filter.length_eq
    have hl2 : (full.filter (· ∈ g)).length + (full.filter (· ∉ g)).length = full.length := by
      have := hsplit.length_eq
      simpa [List.length_append] using this
    omega
  have hrg := repairGo_perm g (full.filter (· ∉ g)) [] hmissnd
    (fun m hmf => by
      simp only [List.mem_filter, decide_eq_true_eq] at hmf
      exact ⟨by simp, hmf.2⟩)
    hcount
  exact hrg.trans ((hded_perm_filter.append_right _).trans hsplit)

theorem midPoint_perm {α : Type} [DecidableEq α] {ops p1 p2 : List α}
    (hnd : ops.Nodup) (h1 : p1 ~ ops) (h2 : p2 ~ ops) :
    midPoint ops p1 p2 ~ ops := by
  refine repair_perm hnd (fun x hx => ?_) ?_
  · rcases List.mem_append.mp hx with hx | hx
    · exact h1.subset (List.take_subset _ _ hx)
    · exact h2.subset (List.drop_subset _ _ hx)
  · have hl1 := h1.length_eq
    have hl2 := h2.length_eq
    simp only [List.length_append, List.length_take, List.length_drop, hl1, hl2]
    have hhalf : ops.length / 2 ≤ ops.length := Nat.div_le_self _ _
    omega

/-! ## Claim C1 -/

/-- Claim C1: for every instance and configuration, the run configuration
resolves the population size to the user-supplied value when one is set and to
2 times the instance's operation count otherwise, and resolves the generation
count to the user-supplied value when one is set and to 400 otherwise. -/
theorem get_run_config_resolves_defaults (inst : JsspInstance) (config : Config) :
    (∀ ps, config.pop_size = some ps → (get_run_config inst config).pop_size = ps) ∧
    (config.pop_size = none →
      (get_run_config inst config).pop_size = 2 * inst.cfg.n_ops) ∧
    (∀ ng, config.n_gen = some ng → (get_run_config inst config).n_gen = ng) ∧
    (config.n_gen = none → (get_run_config inst config).n_gen = 400) := by
  refine ⟨fun ps hps => ?_, fun hps => ?_, fun ng hng => ?_, fun hng => ?_⟩
  · simp [get_run_config, hps]
  · simp [get_run_config, hps, Nat.mul_comm]
  · simp [get_run_config, hng]
  · simp [get_run_config, hng]

/-- Witness for C1 at a concrete instance and configuration: a user-supplied
population size of 7 is kept, and an unset generation count defaults to 400. -/
theorem get_run_config_resolves_defaults_witness :
    (get_run_config ⟨⟨3, 2⟩, []⟩ ⟨some 7, none, "", 3 / 2, 1 / 10, 2 / 10⟩).pop_size = 7 ∧
    (get_run_config ⟨⟨3, 2⟩, []⟩ ⟨some 7, none, "", 3 / 2, 1 / 10, 2 / 10⟩).n_gen = 400 :=
  ⟨(get_run_config_resolves_defaults ⟨⟨3, 2⟩, []⟩ ⟨some 7, none, "", 3 / 2, 1 / 10, 2 / 10⟩).1
      7 rfl,
   (get_run_config_resolves_defaults ⟨⟨3, 2⟩, []⟩
      ⟨some 7, none, "", 3 / 2, 1 / 10, 2 / 10⟩).2.2.2 rfl⟩

/-! ## Claim C10 -/

/-- Claim C10: for every configuration whose `solver_type` string is neither
the random-search constant nor the custom-crossover constant, `run()`
dispatches to the paper solver; an unrecognized solver type string is silently
accepted as the paper solver rather than rejected as a configuration error. -/
theorem run_dispatch_default_paper (rsConst ccConst : String) (config : Config)
    (hrs : config.solver_type ≠ rsConst) (hcc : config.solver_type ≠ ccConst) :
    run_dispatch rsConst ccConst config = SolverKind.paper := by
  simp [run_dispatch, hrs, hcc]

/-- Witness for C10: the solver type string "totally-unknown" matches neither
constant and is dispatched to the paper solver. -/
theorem run_dispatch_default_paper_witness :
    run_dispatch "randomsearch" "custom_crossover"
      ⟨none, none, "totally-unknown", 3 / 2, 1 / 10, 2 / 10⟩ = SolverKind.paper :=
  run_dispatch_default_paper "randomsearch" "custom_crossover"
    ⟨none, none, "totally-unknown", 3 / 2, 1 / 10, 2 / 10⟩ (by decide) (by decide)

/-! ## Claim C8 -/

/-- Claim C8 counterexample: the claim says the fitness penalty exponent,
elite ratio and random-injection ratio used by a run are supplied by the
loaded configuration.  At a configuration whose numeric block carries penalty
2, elite ratio 3/10 and random ratio 4/10, the paper solver nevertheless runs
with penalty 3/2, elite ratio 1/10 and random ratio 1/5: the entry points pass
the literal constants `1.5`, `0.1`, `0.2`. -/
theorem solver_params_counterexample :
    ¬ ((run_paper_solver_params ⟨⟨3, 2⟩, []⟩ ⟨none, none, "", 2, 3 / 10, 4 / 10⟩).fitness_penalty
          = (⟨none, none, "", 2, 3 / 10, 4 / 10⟩ : Config).fitness_penalty ∧
       (run_paper_solver_params ⟨⟨3, 2⟩, []⟩ ⟨none, none, "", 2, 3 / 10, 4 / 10⟩).elite_ratio
          = (⟨none, none, "", 2, 3 / 10, 4 / 10⟩ : Config).elite_ratio ∧
       (run_paper_solver_params ⟨⟨3, 2⟩, []⟩ ⟨none, none, "", 2, 3 / 10, 4 / 10⟩).random_ratio
          = (⟨none, none, "", 2, 3 / 10, 4 / 10⟩ : Config).random_ratio) := by
  intro h
  have := h.1
  norm_num [run_paper_solver_params] at this

/-- Claim C8 (amended): the fitness penalty exponent, elite ratio and
random-injection ratio used by a run are fixed literal constants (1.5, 0.1,
0.2) inside the solver entry points, independent of the instance and of the
loaded configuration; only the population size and generation count are taken
from external configuration. -/
theorem solver_params_hardcoded (inst : JsspInstance) (config : Config) :
    (run_paper_solver_params inst config).fitness_penalty = 3 / 2 ∧
    (run_paper_solver_params inst config).elite_ratio = 1 / 10 ∧
    (run_paper_solver_params inst config).random_ratio = 1 / 5 ∧
    (run_custom_solver_params inst config).fitness_penalty = 3 / 2 ∧
    (run_custom_solver_params inst config).elite_ratio = 1 / 10 ∧
    (run_custom_solver_params inst config).random_ratio = 1 / 5 ∧
    run_randomsearch_penalty inst config = 3 / 2 ∧
    (run_paper_solver_params inst config).pop_size =
      (get_run_config inst config).pop_size ∧
    (run_paper_solver_params inst config).n_gen =
      (get_run_config inst config).n_gen := by
  refine ⟨rfl, rfl, by norm_num [run_paper_solver_params], rfl, rfl,
    by norm_num [run_custom_solver_params], rfl, rfl, rfl⟩

/-! ## Claim C3 -/

/-- Claim C3: fitness is a monotonically decreasing function of makespan: for
every two individuals A and B with positive makespans, makespan(A) <
makespan(B) implies fitness(A) > fitness(B), the score being `1 / makespan^p`
for the configured penalty exponent `p`. -/
theorem fitness_monotone_in_makespan (p : ℝ) (mA mB : ℕ) (hp : 0 < p)
    (hA : 0 < mA) (hlt : mA < mB) : fitnessScore mB p < fitnessScore mA p := by
  have hA' : (0 : ℝ) < (mA : ℝ) := by exact_mod_cast hA
  have hlt' : (mA : ℝ) < (mB : ℝ) := by exact_mod_cast hlt
  have hpow : (mA : ℝ) ^ p < (mB : ℝ) ^ p := Real.rpow_lt_rpow (le_of_lt hA') hlt' hp
  have hpos : (0 : ℝ) < (mA : ℝ) ^ p := Real.rpow_pos_of_pos hA' p
  simpa [fitnessScore] using one_div_lt_one_div_of_lt hpos hpow

/-- Witness for C3: with penalty exponent 1, a makespan of 2 scores strictly
higher than a makespan of 3. -/
theorem fitness_monotone_in_makespan_witness :
    fitnessScore 3 1 < fitnessScore 2 1 :=
  fitness_monotone_in_makespan 1 2 3 one_pos (by decide) (by decide)

/-! ## Claim C6 -/

/-- Claim C6: in the schedule produced by the Fitness Evaluator's forward
simulation — start time = max(job-predecessor end time, machine's
last-assigned end time), end time = start + duration — no two operations
assigned to the same machine have overlapping time intervals: pairwise in
genome order, operations on a common machine occupy disjoint intervals. -/
theorem simulate_no_machine_overlap (genome : List Operation) :
    (simulate genome (fun _ => 0) (fun _ => 0)).Pairwise
      (fun e₁ e₂ => e₁.op.machine = e₂.op.machine →
        e₁.finish ≤ e₂.start ∨ e₂.finish ≤ e₁.start) :=
  (simulate_machine_ordered genome _ _).imp (fun h hm => Or.inl (h hm))

/-! ## Claim C7 -/

/-- Claim C7: fitness evaluation is idempotent: evaluating an individual twice
without a genome change yields the same makespan, the same scalar score, the
same derived per-operation start and end times, and in fact the same
individual. -/
theorem evaluate_idempotent (p : ℝ) (ind : EvaluatedIndividual) :
    (evaluate p (evaluate p ind)).makespan = (evaluate p ind).makespan ∧
    (evaluate p (evaluate p ind)).score = (evaluate p ind).score ∧
    (evaluate p (evaluate p ind)).schedule = (evaluate p ind).schedule ∧
    evaluate p (evaluate p ind) = evaluate p ind :=
  ⟨rfl, rfl, rfl, rfl⟩

/-! ## Claim C2 -/

/-- Claim C2 counterexample: the claim asserts that in every replacement
result the elite slice's fitness values are all ≥ the worst retained fitness
of the random/offspring slices.  With elite ratio 1/2 and random ratio 0, the
current population [1, 1], the offspring pool [5] and no fresh randoms (all
slice-size side conditions hold), the next population is [1, 5]: the elite
value 1 is strictly below the worst retained offspring fitness 5.  Its length
indeed equals the current population's, but the elite-band ordering fails. -/
theorem jssp_replacement_counterexample :
    jsspReplacement (1 / 2) 0 [1, 1] [5] [] = [1, 5] ∧
    (jsspReplacement (1 / 2) 0 [1, 1] [5] []).length = ([1, 1] : List ℕ).length ∧
    ratioCount (1 / 2) ([1, 1] : List ℕ).length = 1 ∧
    ratioCount 0 ([1, 1] : List ℕ).length = 0 ∧
    ¬ eliteBandProp 1 (jsspReplacement (1 / 2) 0 [1, 1] [5] []) := by
  have h1 : ratioCount (1 / 2) ([1, 1] : List ℕ).length = 1 := ratioCount_half_two
  have h0 : ratioCount 0 ([1, 1] : List ℕ).length = 0 := ratioCount_zero_two
  have hres : jsspReplacement (1 / 2) 0 [1, 1] [5] [] = [1, 5] := by
    show (sortDesc [1, 1]).take (ratioCount (1 / 2) 2) ++
      ([] : List ℕ).take (ratioCount 0 2) ++
      (sortDesc [5]).take (2 - ratioCount (1 / 2) 2 - ratioCount 0 2) = [1, 5]
    rw [ratioCount_half_two, ratioCount_zero_two]
    rfl
  refine ⟨hres, by rw [hres]; rfl, h1, h0, ?_⟩
  rw [hres]
  decide

/-- Claim C2 (amended): for every call `replace(current population,
offspring)` whose slice sizes are consistent (elite + random counts fit in the
population, the provider supplies exactly the random batch, and the offspring
pool can fill the remainder), the next population has the same length as the
current one, its elite slice is exactly the top elite fraction of the current
population ranked by fitness, and every elite fitness value is ≥ every fitness
value of the non-elite remainder of the current population.  (The original
comparison against the retained random/offspring slices is refuted by
`jssp_replacement_counterexample`: offspring and fresh randoms may score
better than the retained elites.) -/
theorem jssp_replacement_amended (eliteRatio randomRatio : ℚ)
    (pop offspring randoms : List ℕ)
    (hcounts : ratioCount eliteRatio pop.length + ratioCount randomRatio pop.length ≤
      pop.length)
    (hrand : randoms.length = ratioCount randomRatio pop.length)
    (hoff : pop.length - ratioCount eliteRatio pop.length -
      ratioCount randomRatio pop.length ≤ offspring.length) :
    (jsspReplacement eliteRatio randomRatio pop offspring randoms).length = pop.length ∧
    (jsspReplacement eliteRatio randomRatio pop offspring randoms).take
        (ratioCount eliteRatio pop.length) =
      (sortDesc pop).take (ratioCount eliteRatio pop.length) ∧
    ∀ e ∈ (sortDesc pop).take (ratioCount eliteRatio pop.length),
      ∀ x ∈ (sortDesc pop).drop (ratioCount eliteRatio pop.length), x ≤ e := by
  have hec : ratioCount eliteRatio pop.length ≤ pop.length :=
    le_trans (Nat.le_add_right _ _) hcounts
  have hA : ((sortDesc pop).take (ratioCount eliteRatio pop.length)).length =
      ratioCount eliteRatio pop.length := by
    rw [List.length_take, length_sortDesc]
    exact min_eq_left hec
  refine ⟨?_, ?_, ?_⟩
  · simp only [jsspReplacement, List.length_append, List.length_take, length_sortDesc,
      hrand]
    omega
  · simp only [jsspReplacement, List.append_assoc]
    exact List.take_left' hA
  · have hp2 : ((sortDesc pop).take (ratioCount eliteRatio pop.length) ++
        (sortDesc pop).drop (ratioCount eliteRatio pop.length)).Pairwise
          (fun a b => b ≤ a) := by
      rw [List.take_append_drop]
      exact pairwise_sortDesc pop
    exact fun e he x hx => (List.pairwise_append.mp hp2).2.2 e he x hx

/-- Witness for the amended C2 at a concrete call: elite ratio 1/2, random
ratio 0, current population [1, 2], offspring pool [5]. -/
theorem jssp_replacement_amended_witness :
    (jsspReplacement (1 / 2) 0 [1, 2] [5] []).length = ([1, 2] : List ℕ).length ∧
    (jsspReplacement (1 / 2) 0 [1, 2] [5] []).take
        (ratioCount (1 / 2) ([1, 2] : List ℕ).length) =
      (sortDesc [1, 2]).take (ratioCount (1 / 2) ([1, 2] : List ℕ).length) ∧
    ∀ e ∈ (sortDesc [1, 2]).take (ratioCount (1 / 2) ([1, 2] : List ℕ).length),
      ∀ x ∈ (sortDesc [1, 2]).drop (ratioCount (1 / 2) ([1, 2] : List ℕ).length), x ≤ e :=
  jssp_replacement_amended (1 / 2) 0 [1, 2] [5] [] c2_counts_le c2_rand_len c2_off_len

/-! ## Claim C4 -/

/-- Claim C4: for every count and every valid instance (all operations
distinct), each individual returned by the Population Provider's
`generate(count)` has a genome that is a permutation of the instance's full
operation set (no duplicates, none missing) in which every job's operations
appear exactly in the job's precedence order — every operation appears after
its job-predecessor, so the genome is topologically valid with respect to job
precedence. -/
theorem generated_genome_perm_and_precedence {α : Type} [DecidableEq α]
    (jobs : List (List α)) (count : ℕ) (seeds : List (List ℕ))
    (hnd : jobs.flatten.Nodup) :
    ∀ genome ∈ generatePopulation jobs count seeds,
      genome ~ jobs.flatten ∧ genome.Nodup ∧
      ∀ j, genome.filter (· ∈ jobs.getD j []) = jobs.getD j [] := by
  intro genome hg
  obtain ⟨k, hk, rfl⟩ := List.mem_map.mp hg
  have hperm := buildGenome_perm jobs.flatten.length jobs (seeds.getD k []) le_rfl
  exact ⟨hperm, hperm.nodup_iff.mpr hnd, fun j =>
    buildGenome_filter jobs.flatten.length jobs (seeds.getD k []) le_rfl hnd j⟩

/-- Witness for C4 at the concrete instance with jobs [[0, 1], [2]] (operation
1 is job 0's second operation) and the random stream [5, 3, 1]. -/
theorem generated_genome_perm_and_precedence_witness :
    generateIndividual [[0, 1], [2]] [5, 3, 1] ~ ([[0, 1], [2]] : List (List ℕ)).flatten ∧
    (generateIndividual [[0, 1], [2]] [5, 3, 1]).Nodup ∧
    ∀ j, (generateIndividual [[0, 1], [2]] [5, 3, 1]).filter
        (· ∈ ([[0, 1], [2]] : List (List ℕ)).getD j []) =
      ([[0, 1], [2]] : List (List ℕ)).getD j [] :=
  generated_genome_perm_and_precedence [[0, 1], [2]] 1 [[5, 3, 1]] (by decide)
    (generateIndividual [[0, 1], [2]] [5, 3, 1])
    (by simp [generatePopulation])

/-! ## Claim C5 -/

/-- Claim C5 counterexample: the claim asserts that every crossover variant
preserves each job's within-job precedence order.  Take the instance with
jobs [[0, 1], [2, 3]] (operation 1 is job 0's successor of operation 0, and 3
is job 1's successor of 2).  Both parents [2, 3, 0, 1] and [0, 1, 2, 3] are
permutations of the full operation set that respect within-job order, yet the
precedence-preserving (cut-and-fill) crossover with cut region at position 2
of length 1 yields [1, 2, 0, 3], where job 0's operation 1 precedes its
job-predecessor 0. -/
theorem crossover_precedence_counterexample :
    (([2, 3, 0, 1] : List ℕ) ~ ([[0, 1], [2, 3]] : List (List ℕ)).flatten) ∧
    (([0, 1, 2, 3] : List ℕ) ~ ([[0, 1], [2, 3]] : List (List ℕ)).flatten) ∧
    (∀ j, ([2, 3, 0, 1] : List ℕ).filter
        (· ∈ ([[0, 1], [2, 3]] : List (List ℕ)).getD j []) =
      ([[0, 1], [2, 3]] : List (List ℕ)).getD j []) ∧
    (∀ j, ([0, 1, 2, 3] : List ℕ).filter
        (· ∈ ([[0, 1], [2, 3]] : List (List ℕ)).getD j []) =
      ([[0, 1], [2, 3]] : List (List ℕ)).getD j []) ∧
    jsspCrossover [2, 3, 0, 1] [0, 1, 2, 3] 2 1 = [1, 2, 0, 3] ∧
    ¬ ((jsspCrossover [2, 3, 0, 1] [0, 1, 2, 3] 2 1).filter
        (· ∈ ([[0, 1], [2, 3]] : List (List ℕ)).getD 0 []) =
      ([[0, 1], [2, 3]] : List (List ℕ)).getD 0 []) := by
  refine ⟨by decide, by decide, fun j => ?_, fun j => ?_, by decide, by decide⟩ <;>
    match j with
    | 0 => decide
    | 1 => decide
    | n + 2 =>
      rw [List.getD_eq_default _ _ (by simp)]
      decide

/-- Claim C5 (amended): for parents whose genomes are permutations of the
full operation set, every crossover variant produces offspring whose genome is
a permutation of the full operation set with length equal to the total
operation count; the no-op variant returns the parents unchanged and hence
also preserves within-job precedence, but the cut-and-fill
(precedence-preserving) variant — and likewise the midpoint variant — does not
in general preserve within-job precedence order (see
`crossover_precedence_counterexample`). -/
theorem crossover_variants_amended {α : Type} [DecidableEq α]
    (ops p1 p2 : List α) (i len : ℕ) (hnd : ops.Nodup)
    (h1 : p1 ~ ops) (h2 : p2 ~ ops) :
    (jsspCrossover p1 p2 i len ~ ops ∧
      (jsspCrossover p1 p2 i len).length = ops.length) ∧
    (midPoint ops p1 p2 ~ ops ∧ (midPoint ops p1 p2).length = ops.length) ∧
    noopCrossover p1 p2 = (p1, p2) := by
  have hp1nd : p1.Nodup := h1.nodup_iff.mpr hnd
  have hox : jsspCrossover p1 p2 i len ~ ops :=
    (jsspCrossover_perm hp1nd (h2.trans h1.symm) i len).trans h1
  have hmp : midPoint ops p1 p2 ~ ops := midPoint_perm hnd h1 h2
  exact ⟨⟨hox, hox.length_eq⟩, ⟨hmp, hmp.length_eq⟩, rfl⟩

/-- Witness for the amended C5 at the concrete instance of the
counterexample: operation set [0, 1, 2, 3], parents [2, 3, 0, 1] and
[0, 1, 2, 3], cut region at position 2 of length 1. -/
theorem crossover_variants_amended_witness :
    (jsspCrossover [2, 3, 0, 1] [0, 1, 2, 3] 2 1 ~ ([0, 1, 2, 3] : List ℕ) ∧
      (jsspCrossover [2, 3, 0, 1] [0, 1, 2, 3] 2 1).length =
        ([0, 1, 2, 3] : List ℕ).length) ∧
    (midPoint [0, 1, 2, 3] [2, 3, 0, 1] [0, 1, 2, 3] ~ ([0, 1, 2, 3] : List ℕ) ∧
      (midPoint [0, 1, 2, 3] [2, 3, 0, 1] [0, 1, 2, 3]).length =
        ([0, 1, 2, 3] : List ℕ).length) ∧
    noopCrossover [2, 3, 0, 1] [0, 1, 2, 3] = (([2, 3, 0, 1] : List ℕ), [0, 1, 2, 3]) :=
  crossover_variants_amended [0, 1, 2, 3] [2, 3, 0, 1] [0, 1, 2, 3] 2 1
    (by decide) (by decide) (by decide)

/-! ## Claim C9 -/

/-- Claim C9: if the problem instance is malformed (zero operations or a
reference to a nonexistent machine), instance loading fails with an
`InstanceError` exactly once at load time and the run aborts before any
generation executes; the loader runs exactly once, never per generation. -/
theorem instance_error_aborts_run (raw : RawInstance) (config : Config)
    (hbad : rawOpCount raw = 0 ∨ hasBadMachineRef raw = true) :
    (∃ e, loadInstance raw = Except.error e ∧ (runModel raw config).aborted = some e) ∧
    (runModel raw config).generationsExecuted = 0 ∧
    (runModel raw config).loadCalls = 1 := by
  have hload : ∃ e, loadInstance raw = Except.error e := by
    rcases hbad with h | h
    · exact ⟨InstanceError.emptyInstance, by simp [loadInstance, h]⟩
    · by_cases h0 : rawOpCount raw = 0
      · exact ⟨InstanceError.emptyInstance, by simp [loadInstance, h0]⟩
      · exact ⟨InstanceError.badMachineReference, by simp [loadInstance, h0, h]⟩
  obtain ⟨e, he⟩ := hload
  exact ⟨⟨e, he, by simp [runModel, he]⟩, by simp [runModel, he], by simp [runModel, he]⟩

/-- Witness for C9 at a concrete malformed instance (no jobs, hence zero
operations): loading errors out and the run executes zero generations. -/
theorem instance_error_aborts_run_witness :
    (∃ e, loadInstance ⟨[], 3⟩ = Except.error e ∧
      (runModel ⟨[], 3⟩ ⟨none, none, "", 3 / 2, 1 / 10, 2 / 10⟩).aborted = some e) ∧
    (runModel ⟨[], 3⟩ ⟨none, none, "", 3 / 2, 1 / 10, 2 / 10⟩).generationsExecuted = 0 ∧
    (runModel ⟨[], 3⟩ ⟨none, none, "", 3 / 2, 1 / 10, 2 / 10⟩).loadCalls = 1 :=
  instance_error_aborts_run ⟨[], 3⟩ ⟨none, none, "", 3 / 2, 1 / 10, 2 / 10⟩ (Or.inl rfl)

end EcrsDataKit
